import Mathlib

/-!
Shallow embedding of the spatial Echo State Network engine in `Spatial_ESN.py`
(class `Spatial_ESN` and the module-level constants it uses), together with
theorems checking the natural-language specification against it.

Modelling conventions:
* numpy float64 values are modelled as real numbers (`ℝ`); the NaN-detection
  behaviour of `update` is additionally modelled with an explicit NaN-carrying
  value domain `FVal` (reals plus a NaN element, with IEEE-style propagation).
* every call to `np.random.*` is replaced by an explicit parameter holding the
  drawn sample (a "draw"), so the random functions become ordinary functions of
  their draws.
* the mutable `self` object is passed and returned explicitly; a method that can
  raise returns the (possibly partially mutated) object together with an
  `Except`-style outcome, because in Python the caller keeps the mutated object
  when an exception propagates.
* the source only type-checks its `pseudo_W` product and feeds `self.y` back as
  an input when `number_input = number_output` (the shipped `__main__` uses
  1 and 1), so the embedding uses a single width parameter `k` for both.
-/

noncomputable section

namespace SpatialESN

/-- The regularization constant from the default parameter table (`"epsilon" : 1e-8`),
a module-level global read by `train`. -/
def epsilon : ℝ := 1e-8

/-- numpy lets the `W_out` attribute change shape: `reset_reservoir` creates it with
shape `(N, number_output)` and `train` overwrites it with shape `(number_output, N)`.
The two shapes are kept apart in a sum type. -/
inductive WOutMat (N k : ℕ) : Type
  | untrained (m : Matrix (Fin N) (Fin k) ℝ) : WOutMat N k
  | trained (m : Matrix (Fin k) (Fin N) ℝ) : WOutMat N k

/-- The state of a `Spatial_ESN` instance: the scalar parameters stored by
`__init__`, the structured array `self.x` (fields `activity`, `position`, `mean`),
the weight matrices, the output vector `self.y`, the step counter `self.n_iter`,
the `istrained` flag and the `len_warmup`/`len_training` bookkeeping attributes
(initialised to `-1`, hence integers).  The recording attributes (`isRecording`,
`historic`) only feed the plotting code and are not modelled. -/
structure ESN (N k : ℕ) : Type where
  leak_rate : ℝ
  noise : ℝ
  external_sparsity : ℝ
  intern_sparsity : ℝ
  spectral_radius : ℝ
  activity : Fin N → ℝ
  position : Fin N → ℝ × ℝ
  mean : Fin N → ℝ
  istrained : Bool
  n_iter : ℕ
  W : Matrix (Fin N) (Fin N) ℝ
  W_in : Matrix (Fin N) (Fin (k + 1)) ℝ
  W_out : WOutMat N k
  connection_out : Fin N → Bool
  W_back : Matrix (Fin N) (Fin k) ℝ
  y : Fin k → ℝ
  len_warmup : ℤ
  len_training : ℤ

/-- One dynamics step (`Spatial_ESN.update`).  `input = none` models passing the
default empty array, which the method replaces by a zero vector of the input
width; `noiseDraw` is the `uniform(-1,1)` sample behind `generateNoise`, scaled
by the noise amplitude and added to the input only when `addNoise` is set
(`input + addNoise * self.generateNoise()`).  The feedback term `matrixC` is the
literal constant `0` in the source (the `W_back @ y` expression is commented
out), the readout `y` is recomputed only when `istrained` is set, and the running
mean is updated after the counter `n_iter` has been incremented, exactly as in
the source.  The NaN check sits between the activity assignment and the rest; in
the real-number model no NaN exists, and it is modelled separately on `FVal`. -/
def update {N k : ℕ} (net : ESN N k) (input : Option (Fin k → ℝ)) (addNoise : Bool)
    (noiseDraw : Fin k → ℝ) : ESN N k :=
  let inp : Fin k → ℝ := input.getD (fun _ => 0)
  let u : Fin (k + 1) → ℝ :=
    Fin.cons 1 (fun i => inp i + (if addNoise then net.noise * noiseDraw i else 0))
  let matrixA : Fin N → ℝ := Matrix.mulVec net.W_in u
  let matrixB : Fin N → ℝ := Matrix.mulVec net.W net.activity
  let newAct : Fin N → ℝ := fun i =>
    (1 - net.leak_rate) * net.activity i + net.leak_rate * Real.tanh (matrixA i + matrixB i)
  let newY : Fin k → ℝ :=
    if net.istrained then
      match net.W_out with
      | .trained m => Matrix.mulVec m newAct
      | .untrained _ => net.y
    else net.y
  { net with
    activity := newAct
    y := newY
    n_iter := net.n_iter + 1
    mean := fun i =>
      (net.mean i * ((net.n_iter : ℝ) + 1) + newAct i) / ((net.n_iter : ℝ) + 2) }

/-- The constructor parameters of `Spatial_ESN.__init__` that the claims use. -/
structure Params : Type where
  external_sparsity : ℝ
  intern_sparsity : ℝ
  spectral_radius : ℝ
  leak_rate : ℝ
  noise : ℝ

/-- All random samples drawn by `reset_reservoir(completeReset=True)`, in source
order: the Bridson blue-noise positions (an external collaborator, so the points
are a parameter and `N` is the realized count), the fresh activity vector, the
`W` entries, the per-pair connection thresholds `uniform(0, intern_sparsity)`,
the `W_in` entries, the per-entry input-gate draws `uniform(0,1)`, the `W_out`
entries, the per-neuron output-gate draws `uniform(0, external_sparsity)` and
the `W_back` entries. -/
structure ResetDraws (N k : ℕ) : Type where
  positions : Fin N → ℝ × ℝ
  activityDraw : Fin N → ℝ
  wDraw : Matrix (Fin N) (Fin N) ℝ
  internThresh : Matrix (Fin N) (Fin N) ℝ
  wInDraw : Matrix (Fin N) (Fin (k + 1)) ℝ
  connInDraw : Matrix (Fin N) (Fin (k + 1)) ℝ
  wOutDraw : Matrix (Fin N) (Fin k) ℝ
  connOutDraw : Fin N → ℝ
  wBackDraw : Matrix (Fin N) (Fin k) ℝ

/-- Euclidean distance between two sampled neuron positions
(`scipy.spatial.distance.cdist` on `self.x["position"]`). -/
def pdist {N k : ℕ} (d : ResetDraws N k) (i j : Fin N) : ℝ :=
  Real.sqrt (((d.positions i).1 - (d.positions j).1) ^ 2
    + ((d.positions i).2 - (d.positions j).2) ^ 2)

/-- The internal weight matrix right after masking (before the scaling step):
`W *= intern_connections * (1 - eye) * (deltax > 0)` where
`intern_connections = distances < uniform(0, intern_sparsity)` and
`deltax[i,j] = position[i].x - position[j].x` (the source builds
`deltax = tile(posx).T - tile(posx)`). -/
def maskedW {N k : ℕ} (d : ResetDraws N k) : Matrix (Fin N) (Fin N) ℝ :=
  fun i j =>
    d.wDraw i j *
      ((if pdist d i j < d.internThresh i j then (1 : ℝ) else 0) *
        (if i = j then (0 : ℝ) else 1) *
        (if (d.positions i).1 - (d.positions j).1 > 0 then (1 : ℝ) else 0))

/-- The masked input matrix: `W_in *= (posx / external_sparsity < uniform(0,1))`,
per (neuron, column) entry, column 0 being the bias column. -/
def maskedWIn {N k : ℕ} (p : Params) (d : ResetDraws N k) :
    Matrix (Fin N) (Fin (k + 1)) ℝ :=
  fun i c =>
    d.wInDraw i c *
      (if (d.positions i).1 / p.external_sparsity < d.connInDraw i c then (1 : ℝ) else 0)

/-- The per-neuron output gate: `connection_out = (1 - posx) < uniform(0, external_sparsity)`. -/
def connOutGate {N k : ℕ} (d : ResetDraws N k) (i : Fin N) : Bool :=
  if 1 - (d.positions i).1 < d.connOutDraw i then true else false

/-- The masked initial output matrix: each row of `W_out` is zeroed for neurons
outside the output gate (the `number_output == 1` branch of the source; the
other branch does not broadcast and is unreachable in the shipped program). -/
def maskedWOut {N k : ℕ} (d : ResetDraws N k) : Matrix (Fin N) (Fin k) ℝ :=
  fun i o => if connOutGate d i then d.wOutDraw i o else 0

/-- `W_in[:,1:]`: the input matrix without its bias column. -/
def wInCols {N k : ℕ} (p : Params) (d : ResetDraws N k) : Matrix (Fin N) (Fin k) ℝ :=
  fun i c => maskedWIn p d i c.succ

/-- `pseudo_W = W + (W_out @ W_in[:,1:].T).T`, computed by the source from the
masked, not-yet-scaled `W` (the eigenvalue computation on it is commented out). -/
def pseudoW {N k : ℕ} (p : Params) (d : ResetDraws N k) : Matrix (Fin N) (Fin N) ℝ :=
  maskedW d + (maskedWOut d * (wInCols p d).transpose).transpose

/-- "ρ == 0" for a real matrix, read over `ℂ` where eigenvalues always exist:
every complex eigenvalue of the matrix is zero. -/
def eigvalsAllZero {N : ℕ} (M : Matrix (Fin N) (Fin N) ℝ) : Prop :=
  ∀ (μ : ℂ) (v : Fin N → ℂ), v ≠ 0 →
    Matrix.mulVec (M.map (fun r => (r : ℂ))) v = μ • v → μ = 0

/-- Construction of a network: `__init__`, which stores the scalar parameters,
calls `reset_reservoir(completeReset=True)` and then initialises
`len_warmup = len_training = -1`.  The complete reset draws fresh activity
(`mean` starts as a copy of it), zeroes the step counter, stores the sampled
positions, builds the masked matrices, and then scales `W` by the flat factor
`self.spectral_radius` (the eigenvalue-normalised variant in the source is
commented out, so no spectrum is computed and no failure path exists). -/
def mkESN {N k : ℕ} (p : Params) (d : ResetDraws N k) : ESN N k where
  leak_rate := p.leak_rate
  noise := p.noise
  external_sparsity := p.external_sparsity
  intern_sparsity := p.intern_sparsity
  spectral_radius := p.spectral_radius
  activity := d.activityDraw
  position := d.positions
  mean := d.activityDraw
  istrained := false
  n_iter := 0
  W := fun i j => p.spectral_radius * maskedW d i j
  W_in := maskedWIn p d
  W_out := .untrained (maskedWOut d)
  connection_out := connOutGate d
  W_back := d.wBackDraw
  y := fun _ => 0
  len_warmup := -1
  len_training := -1

/-- `reset_reservoir(completeReset=False)`: the structured array `self.x` is
rebuilt from zeros, so `position` is zeroed (it is refilled only on a complete
reset); a fresh activity vector is drawn, `mean` becomes a copy of it and the
trained flag is cleared.  Weights, `y`, `n_iter` and the bookkeeping attributes
are untouched. -/
def resetState {N k : ℕ} (net : ESN N k) (actDraw : Fin N → ℝ) : ESN N k :=
  { net with
    activity := actDraw
    mean := actDraw
    position := fun _ => (0, 0)
    istrained := false }

/-- The state and recorded design-matrix rows of the loop in `Spatial_ESN.train`
after `m` of its iterations (`for i in range(1, len(inputs))`): iteration `i`
first records `X[i] = activity * connection_out` from the current state, then
advances the dynamics one step on `inputs[i]` with noise injection enabled. -/
def trainLoop {N k : ℕ} (net : ESN N k) (inputs : ℕ → Option (Fin k → ℝ))
    (noiseSeq : ℕ → Fin k → ℝ) : ℕ → ESN N k × List (Fin N → ℝ)
  | 0 => (net, [])
  | m + 1 =>
    let s := trainLoop net inputs noiseSeq m
    (update s.1 (inputs (m + 1)) true (noiseSeq (m + 1)),
      s.2 ++ [fun j => s.1.activity j * (if s.1.connection_out j then 1 else 0)])

/-- The design matrix `X` of `train` on sequences of length `T`: allocated as
zeros, row `0` is never written, and row `i ≥ 1` is the row recorded at loop
iteration `i` (the loop runs `T - 1` iterations). -/
def designX {N k : ℕ} (net : ESN N k) (inputs : ℕ → Option (Fin k → ℝ))
    (noiseSeq : ℕ → Fin k → ℝ) (T : ℕ) : Matrix (Fin T) (Fin N) ℝ :=
  fun i j =>
    if (i : ℕ) = 0 then 0
    else ((trainLoop net inputs noiseSeq (T - 1)).2.getD ((i : ℕ) - 1) fun _ => 0) j

/-- `Spatial_ESN.train` on input/expected sequences of common length `T`
(modelled as functions read on `[0, T)`): run the recording loop, solve the
regularised linear regression
`W_out = expectedᵀ · X · (Xᵀ·X + ε·I)⁻¹`, mark the network trained, and
recompute `y = W_out · activity` from the current activity. -/
def train {N k : ℕ} (net : ESN N k) (T : ℕ) (inputs : ℕ → Option (Fin k → ℝ))
    (expected : ℕ → Fin k → ℝ) (noiseSeq : ℕ → Fin k → ℝ) : ESN N k :=
  let final := (trainLoop net inputs noiseSeq (T - 1)).1
  let X : Matrix (Fin T) (Fin N) ℝ := designX net inputs noiseSeq T
  let expectedM : Matrix (Fin T) (Fin k) ℝ := fun i o => expected (i : ℕ) o
  let newW : Matrix (Fin k) (Fin N) ℝ :=
    expectedM.transpose * X *
      (X.transpose * X + epsilon • (1 : Matrix (Fin N) (Fin N) ℝ))⁻¹
  { final with
    W_out := .trained newW
    istrained := true
    y := Matrix.mulVec newW final.activity }

theorem update_W {N k : ℕ} (net : ESN N k) (input : Option (Fin k → ℝ)) (b : Bool)
    (nd : Fin k → ℝ) : (update net input b nd).W = net.W := rfl

theorem update_connection_out {N k : ℕ} (net : ESN N k) (input : Option (Fin k → ℝ))
    (b : Bool) (nd : Fin k → ℝ) :
    (update net input b nd).connection_out = net.connection_out := rfl

theorem trainLoop_W {N k : ℕ} (net : ESN N k) (inputs : ℕ → Option (Fin k → ℝ))
    (noiseSeq : ℕ → Fin k → ℝ) (m : ℕ) :
    (trainLoop net inputs noiseSeq m).1.W = net.W := by
  induction m with
  | zero => rfl
  | succ m ih => simpa [trainLoop, update_W] using ih

theorem trainLoop_connection_out {N k : ℕ} (net : ESN N k)
    (inputs : ℕ → Option (Fin k → ℝ)) (noiseSeq : ℕ → Fin k → ℝ) (m : ℕ) :
    (trainLoop net inputs noiseSeq m).1.connection_out = net.connection_out := by
  induction m with
  | zero => rfl
  | succ m ih => simpa [trainLoop, update_connection_out] using ih

theorem trainLoop_length {N k : ℕ} (net : ESN N k) (inputs : ℕ → Option (Fin k → ℝ))
    (noiseSeq : ℕ → Fin k → ℝ) (m : ℕ) :
    (trainLoop net inputs noiseSeq m).2.length = m := by
  induction m with
  | zero => rfl
  | succ m ih => simp [trainLoop, ih]

/-- The row recorded at iteration `m + 1` is the masked activity of the state
after the first `m` iterations, independently of how much further the loop ran. -/
theorem trainLoop_getD {N k : ℕ} (net : ESN N k) (inputs : ℕ → Option (Fin k → ℝ))
    (noiseSeq : ℕ → Fin k → ℝ) (m n : ℕ) (h : m < n) :
    (trainLoop net inputs noiseSeq n).2.getD m (fun _ => 0) =
      fun j => (trainLoop net inputs noiseSeq m).1.activity j *
        (if (trainLoop net inputs noiseSeq m).1.connection_out j then 1 else 0) := by
  induction n with
  | zero => omega
  | succ n ih =>
    rcases Nat.lt_succ_iff_lt_or_eq.mp h with h' | h'
    · rw [trainLoop]
      rw [List.getD_append _ _ _ _ (by rw [trainLoop_length]; exact h')]
      exact ih h'
    · subst h'
      rw [trainLoop]
      rw [List.getD_append_right _ _ _ _ (by rw [trainLoop_length])]
      simp [trainLoop_length]

/-- **C2.** `train` on sequences of common length `T` records a design matrix
`X` with `X[0]` zero and, for `1 ≤ i ≤ T-1`, `X[i]` equal to the pre-update
activity reached after the first `i - 1` steps, masked elementwise by
`connection_out`; the loop advances the dynamics with noise injection enabled at
each step; then `W_out = expectedᵀ · X · (Xᵀ·X + ε·I)⁻¹`, the network is marked
trained, and `y = W_out · activity` is recomputed from the current activity. -/
theorem train_design_and_readout {N k : ℕ} (net : ESN N k) (T : ℕ)
    (inputs : ℕ → Option (Fin k → ℝ)) (expected : ℕ → Fin k → ℝ)
    (noiseSeq : ℕ → Fin k → ℝ) :
    (∀ (i : Fin T) (j : Fin N),
      designX net inputs noiseSeq T i j =
        if (i : ℕ) = 0 then 0
        else (trainLoop net inputs noiseSeq ((i : ℕ) - 1)).1.activity j *
          (if net.connection_out j then 1 else 0)) ∧
    (∀ m, (trainLoop net inputs noiseSeq (m + 1)).1 =
      update (trainLoop net inputs noiseSeq m).1 (inputs (m + 1)) true
        (noiseSeq (m + 1))) ∧
    (train net T inputs expected noiseSeq).W_out =
      .trained (Matrix.transpose (fun (i : Fin T) (o : Fin k) => expected (i : ℕ) o) *
        designX net inputs noiseSeq T *
        ((designX net inputs noiseSeq T).transpose * designX net inputs noiseSeq T
          + epsilon • (1 : Matrix (Fin N) (Fin N) ℝ))⁻¹) ∧
    (train net T inputs expected noiseSeq).istrained = true ∧
    (train net T inputs expected noiseSeq).y =
      Matrix.mulVec
        (Matrix.transpose (fun (i : Fin T) (o : Fin k) => expected (i : ℕ) o) *
          designX net inputs noiseSeq T *
          ((designX net inputs noiseSeq T).transpose * designX net inputs noiseSeq T
            + epsilon • (1 : Matrix (Fin N) (Fin N) ℝ))⁻¹)
        ((trainLoop net inputs noiseSeq (T - 1)).1.activity) := by
  refine ⟨?_, fun m => rfl, rfl, rfl, rfl⟩
  intro i j
  by_cases h0 : (i : ℕ) = 0
  · simp [designX, h0]
  · have hlt : (i : ℕ) - 1 < T - 1 := by
      have := i.isLt
      omega
    rw [designX, if_neg h0, if_neg h0, trainLoop_getD net inputs noiseSeq _ _ hlt,
      trainLoop_connection_out]

/-- All-zero one-neuron, one-channel network, a concrete instance used to
evaluate the theorems below on explicit inputs. -/
def zeroNet : ESN 1 1 where
  leak_rate := 1
  noise := 0
  external_sparsity := 1
  intern_sparsity := 1
  spectral_radius := 1
  activity := fun _ => 0
  position := fun _ => (0, 0)
  mean := fun _ => 0
  istrained := false
  n_iter := 0
  W := 0
  W_in := 0
  W_out := .untrained 0
  connection_out := fun _ => false
  W_back := 0
  y := fun _ => 0
  len_warmup := -1
  len_training := -1

/-- **C8.** Every constructed network has `W[i,i] = 0` (both the `1 - eye`
factor and the strict `deltax > 0` factor vanish on the diagonal), and `W` is
left untouched by every subsequent `update` and `train` call, so the property is
preserved along any run. -/
theorem no_self_loops :
    (∀ (N k : ℕ) (p : Params) (d : ResetDraws N k) (i : Fin N),
      (mkESN p d).W i i = 0) ∧
    (∀ (N k : ℕ) (net : ESN N k) (input : Option (Fin k → ℝ)) (b : Bool)
      (nd : Fin k → ℝ), (update net input b nd).W = net.W) ∧
    (∀ (N k : ℕ) (net : ESN N k) (T : ℕ) (inputs : ℕ → Option (Fin k → ℝ))
      (expected : ℕ → Fin k → ℝ) (noiseSeq : ℕ → Fin k → ℝ),
      (train net T inputs expected noiseSeq).W = net.W) := by
  refine ⟨?_, fun _ _ _ _ _ _ => rfl, ?_⟩
  · intro N k p d i
    simp [mkESN, maskedW]
  · intro N k net T inputs expected noiseSeq
    show (trainLoop net inputs noiseSeq (T - 1)).1.W = net.W
    exact trainLoop_W net inputs noiseSeq (T - 1)

/-- `Spatial_ESN.warmup`: drive the network over the given inputs, with noise
injection disabled (the `addNoise` default). -/
def warmup {N k : ℕ} (net : ESN N k) (l : List (Fin k → ℝ)) : ESN N k :=
  l.foldl (fun s v => update s (some v) false fun _ => 0) net

/-- The closed-loop phase of `simulation`: at each of the `nb_iter` iterations
the network's own output `y` is fed back as the next input (`update(self.y)`,
no noise) and the new `y` is appended to the predictions. -/
def freeRun {N k : ℕ} (net : ESN N k) : ℕ → ESN N k × List (Fin k → ℝ)
  | 0 => (net, [])
  | m + 1 =>
    let s := freeRun net m
    let s1 := update s.1 (some s.1.y) false fun _ => 0
    (s1, s.2 ++ [s1.y])

/-- The failure kind of `simulation`'s precondition check
(`assert len_warmup + len_training <= len(inputs)`). -/
inductive SimError : Type
  | insufficientInput : SimError

/-- `Spatial_ESN.simulation`: record the requested `len_warmup` and
`len_training` on the object, check the precondition (the object with the two
attributes already written is kept by the caller when the assertion fires),
optionally do a non-complete reset, warm up on the first `len_warmup` inputs,
train on the next `len_training` inputs (only when `len_training > 0`) against
`expected`, and finish with the closed-loop free run. -/
def simulation {N k : ℕ} (net : ESN N k) (nb_iter : ℕ) (inputs : List (Fin k → ℝ))
    (expected : ℕ → Fin k → ℝ) (len_warmup len_training : ℕ)
    (noiseSeq : ℕ → Fin k → ℝ) (reset : Bool) (resetDraw : Fin N → ℝ) :
    ESN N k × Except SimError (List (Fin k → ℝ)) :=
  let net1 := { net with
    len_warmup := (len_warmup : ℤ), len_training := (len_training : ℤ) }
  if len_warmup + len_training ≤ inputs.length then
    let net2 := if reset then resetState net1 resetDraw else net1
    let net3 := warmup net2 (inputs.take len_warmup)
    let net4 :=
      if 0 < len_training then
        train net3 len_training
          (fun i => ((inputs.drop len_warmup).take len_training).get? i)
          expected noiseSeq
      else net3
    let r := freeRun net4 nb_iter
    (r.1, .ok r.2)
  else (net1, .error .insufficientInput)

/-- **C5 (amended).** `simulation` raises `InsufficientInput` iff
`len_warmup + len_training > len(inputs)` (the equal-length case succeeds), and
when it is raised the only mutation already performed is the recording of the
requested `len_warmup` and `len_training` attributes; every other part of the
state is unchanged. -/
theorem simulation_insufficient_input {N k : ℕ} (net : ESN N k) (nb_iter : ℕ)
    (inputs : List (Fin k → ℝ)) (expected : ℕ → Fin k → ℝ)
    (len_warmup len_training : ℕ) (noiseSeq : ℕ → Fin k → ℝ) (reset : Bool)
    (resetDraw : Fin N → ℝ) :
    ((simulation net nb_iter inputs expected len_warmup len_training noiseSeq
        reset resetDraw).2 = .error .insufficientInput ↔
      inputs.length < len_warmup + len_training) ∧
    (inputs.length < len_warmup + len_training →
      (simulation net nb_iter inputs expected len_warmup len_training noiseSeq
          reset resetDraw).1 =
        { net with
          len_warmup := (len_warmup : ℤ), len_training := (len_training : ℤ) }) := by
  constructor
  · constructor
    · intro h
      by_contra hlen
      push_neg at hlen
      simp [simulation, hlen] at h
    · intro h
      have hc : ¬ (len_warmup + len_training ≤ inputs.length) := by omega
      simp [simulation, hc]
  · intro h
    have hc : ¬ (len_warmup + len_training ≤ inputs.length) := by omega
    simp [simulation, hc]

/-- Witness: on the one-neuron network with an empty input list and
`len_warmup = 1`, the precondition fails and the returned state is the original
one with only the two bookkeeping attributes written. -/
theorem simulation_insufficient_witness :
    ([] : List (Fin 1 → ℝ)).length < 1 + 0 ∧
    (simulation zeroNet 0 [] (fun _ _ => 0) 1 0 (fun _ _ => 0) false fun _ => 0).1 =
      { zeroNet with len_warmup := ((1 : ℕ) : ℤ), len_training := ((0 : ℕ) : ℤ) } :=
  ⟨by simp,
    (simulation_insufficient_input zeroNet 0 [] (fun _ _ => 0) 1 0 (fun _ _ => 0)
      false fun _ => 0).2 (by simp)⟩

/-- **C5 (counterexample).** With `len_warmup = 1` and an empty input list the
precondition check fires, yet the caller's object differs from the pre-call
state: its `len_warmup` attribute was overwritten (from the initial `-1` to `1`)
before the assertion ran, so state *was* mutated when the failure was raised. -/
theorem simulation_mutates_before_raise :
    (simulation zeroNet 0 [] (fun _ _ => 0) 1 0 (fun _ _ => 0) false fun _ => 0).2 =
      .error .insufficientInput ∧
    (simulation zeroNet 0 [] (fun _ _ => 0) 1 0 (fun _ _ => 0) false
        fun _ => 0).1.len_warmup ≠ zeroNet.len_warmup := by
  constructor
  · simp [simulation]
  · simp [simulation, zeroNet]

/-- `Spatial_ESN.copy`: a fresh instance is built with `isCopy = True` — its
non-complete reset draws a throwaway activity vector (immediately overwritten
below) and clears `istrained`, and `__init__` sets the bookkeeping attributes to
`-1` — then `W`, `W_in`, `W_out`, `connection_out`, `W_back`, the structured
array `x` (activity, position, mean), `y` and `n_iter` are overwritten with
copies of the source's.  `istrained` is not in that list, so it stays `False`. -/
def copy {N k : ℕ} (net : ESN N k) : ESN N k where
  leak_rate := net.leak_rate
  noise := net.noise
  external_sparsity := net.external_sparsity
  intern_sparsity := net.intern_sparsity
  spectral_radius := net.spectral_radius
  activity := net.activity
  position := net.position
  mean := net.mean
  istrained := false
  n_iter := net.n_iter
  W := net.W
  W_in := net.W_in
  W_out := net.W_out
  connection_out := net.connection_out
  W_back := net.W_back
  y := net.y
  len_warmup := -1
  len_training := -1

/-- **C9 (amended).** `copy` clones every matrix and every piece of per-neuron
and scalar state except the trained flag: `W`, `W_in`, `W_out`,
`connection_out`, `W_back`, activity, position, mean, `y` and the step counter
equal the original's, while `istrained` is reset to `False` on the clone (and
the `len_warmup`/`len_training` bookkeeping to `-1`).  In this embedding values
are immutable, so the clone shares no mutable storage with the original and
stepping or training the clone cannot alter the original. -/
theorem copy_fields {N k : ℕ} (net : ESN N k) :
    (copy net).W = net.W ∧ (copy net).W_in = net.W_in ∧
    (copy net).W_out = net.W_out ∧
    (copy net).connection_out = net.connection_out ∧
    (copy net).W_back = net.W_back ∧
    (copy net).activity = net.activity ∧
    (copy net).position = net.position ∧
    (copy net).mean = net.mean ∧
    (copy net).y = net.y ∧
    (copy net).n_iter = net.n_iter ∧
    (copy net).leak_rate = net.leak_rate ∧
    (copy net).noise = net.noise ∧
    (copy net).spectral_radius = net.spectral_radius ∧
    (copy net).istrained = false ∧
    (copy net).len_warmup = -1 ∧ (copy net).len_training = -1 :=
  ⟨rfl, rfl, rfl, rfl, rfl, rfl, rfl, rfl, rfl, rfl, rfl, rfl, rfl, rfl, rfl, rfl⟩

/-- **C9 (counterexample).** Cloning a trained network does not preserve the
trained flag: the original reads `True`, the clone reads `False`. -/
theorem copy_trained_flag_lost :
    ({ zeroNet with istrained := true } : ESN 1 1).istrained = true ∧
    (copy { zeroNet with istrained := true }).istrained = false :=
  ⟨rfl, rfl⟩

/-- The activation keeps every coordinate strictly inside `(-1, 1)`. -/
theorem abs_tanh_lt_one (x : ℝ) : |Real.tanh x| < 1 := by
  rw [Real.tanh_eq_sinh_div_cosh, abs_div, abs_of_pos (Real.cosh_pos x),
    div_lt_one (Real.cosh_pos x)]
  calc |Real.sinh x| = Real.sinh |x| := Real.abs_sinh x
    _ < Real.cosh |x| := Real.sinh_lt_cosh _
    _ = Real.cosh x := Real.cosh_abs x

/-- **C1.** For every network and input, `update` with noise injection disabled
sets the activity vector to
`(1 - leak_rate) * activity_prev + leak_rate * tanh(W_in · u + W · activity_prev)`,
where `u = [1.0]` concatenated with the input vector (a zero vector of the input
width substituted when the input is empty), and the result is the same for every
value of `W_back`: the feedback term contributes nothing. -/
theorem update_activity_no_feedback {N k : ℕ} (net : ESN N k)
    (input : Option (Fin k → ℝ)) (noiseDraw : Fin k → ℝ)
    (Wb : Matrix (Fin N) (Fin k) ℝ) :
    (update { net with W_back := Wb } input false noiseDraw).activity = fun i =>
      (1 - net.leak_rate) * net.activity i + net.leak_rate *
        Real.tanh ((Matrix.mulVec net.W_in (Fin.cons 1 (input.getD (fun _ => 0)))
          + Matrix.mulVec net.W net.activity) i) := by
  funext i
  simp [update]

/-- **C7 (amended).** Each call to `update` first increments the step counter
and only then updates the running mean, so with `n` the counter before the call
the recurrence actually applied is `mean ← (mean * (n+1) + activity) / (n+2)`,
with `activity` the freshly written activity vector. -/
theorem update_mean_recurrence {N k : ℕ} (net : ESN N k)
    (input : Option (Fin k → ℝ)) (b : Bool) (nd : Fin k → ℝ) :
    (update net input b nd).n_iter = net.n_iter + 1 ∧
    (update net input b nd).mean = fun i =>
      (net.mean i * ((net.n_iter : ℝ) + 1) + (update net input b nd).activity i)
        / ((net.n_iter : ℝ) + 2) :=
  ⟨rfl, rfl⟩

/-- **C7 (counterexample).** On the concrete one-neuron network with running
mean 1, counter 0 and zero weights, `update` produces mean `1/2`, while the
claimed formula `mean ← (mean * n + activity) / (n + 1)` (with `n` the counter
before the call) would give `0`. -/
theorem update_mean_claim_false :
    (update { zeroNet with mean := fun _ => 1 } none false (fun _ => 0)).mean 0 ≠
      (({ zeroNet with mean := fun _ => 1 } : ESN 1 1).mean 0 *
          (({ zeroNet with mean := fun _ => 1 } : ESN 1 1).n_iter : ℝ)
        + (update { zeroNet with mean := fun _ => 1 } none false (fun _ => 0)).activity 0)
        / ((({ zeroNet with mean := fun _ => 1 } : ESN 1 1).n_iter : ℝ) + 1) := by
  have hA : (update { zeroNet with mean := fun _ => 1 } none false (fun _ => 0)).activity 0
      = 0 := by
    simp [update, zeroNet, Matrix.zero_mulVec, Real.tanh_zero]
  have hM : (update { zeroNet with mean := fun _ => 1 } none false (fun _ => 0)).mean 0
      = 1 / 2 := by
    simp [update, zeroNet, Matrix.zero_mulVec, Real.tanh_zero]
  rw [hM, hA]
  norm_num [zeroNet]

/-- **C10.** If the leak rate lies in `[0,1]` and every activity lies in
`[-1,1]`, then after any `update` every activity still lies in `[-1,1]`; and a
constructed network whose activity draw lies in `[-1,1]` (as uniform(-1,1)
samples do) starts inside that interval, so every reachable state stays there. -/
theorem activity_interval_invariant :
    (∀ (N k : ℕ) (net : ESN N k) (input : Option (Fin k → ℝ)) (b : Bool)
        (nd : Fin k → ℝ), 0 ≤ net.leak_rate → net.leak_rate ≤ 1 →
        (∀ i, -1 ≤ net.activity i ∧ net.activity i ≤ 1) →
        ∀ i, -1 ≤ (update net input b nd).activity i ∧
          (update net input b nd).activity i ≤ 1) ∧
    (∀ (N k : ℕ) (p : Params) (d : ResetDraws N k),
        (∀ i, -1 ≤ d.activityDraw i ∧ d.activityDraw i ≤ 1) →
        ∀ i, -1 ≤ (mkESN p d).activity i ∧ (mkESN p d).activity i ≤ 1) := by
  constructor
  · intro N k net input b nd h0 h1 ha i
    obtain ⟨hlow, hhigh⟩ := ha i
    have key : ∀ t : ℝ, |t| < 1 →
        -1 ≤ (1 - net.leak_rate) * net.activity i + net.leak_rate * t ∧
          (1 - net.leak_rate) * net.activity i + net.leak_rate * t ≤ 1 := by
      intro t htl
      rw [abs_lt] at htl
      constructor <;> nlinarith [htl.1, htl.2]
    exact key _ (abs_tanh_lt_one _)
  · intro N k p d ha i
    exact ha i

/-- Witness for the invariant: the concrete one-neuron network satisfies the
hypotheses and its updated activity indeed stays in `[-1,1]`. -/
theorem activity_interval_witness :
    (0 : ℝ) ≤ zeroNet.leak_rate ∧ zeroNet.leak_rate ≤ 1 ∧
    (-1 ≤ (update zeroNet none false (fun _ => 0)).activity 0 ∧
      (update zeroNet none false (fun _ => 0)).activity 0 ≤ 1) :=
  ⟨by norm_num [zeroNet], by norm_num [zeroNet],
    activity_interval_invariant.1 1 1 zeroNet none false (fun _ => 0)
      (by norm_num [zeroNet]) (by norm_num [zeroNet])
      (fun _ => by norm_num [zeroNet]) 0⟩

/-- **C3 (amended).** For every constructed network, `W[i,j] ≠ 0` implies
`position[i].x > position[j].x`: information flows from neuron `j` into neuron
`i` (row `i` of `W` lists the afferents of `i`), so nonzero entries point from
smaller to larger x, but with the index roles swapped relative to the claim. -/
theorem W_causal_increasing_x {N k : ℕ} (p : Params) (d : ResetDraws N k)
    (i j : Fin N) (h : (mkESN p d).W i j ≠ 0) :
    ((mkESN p d).position i).1 > ((mkESN p d).position j).1 := by
  by_contra hc
  apply h
  have hx : ¬ ((d.positions i).1 - (d.positions j).1 > 0) := by
    simp only [mkESN] at hc
    intro hgt
    exact hc (by linarith)
  simp only [mkESN, maskedW]
  rw [if_neg hx]
  ring

/-- Concrete constructor parameters: flat scaling factor 2, every sparsity
parameter 1, used for the explicit two-neuron instances below. -/
def cP : Params where
  external_sparsity := 1
  intern_sparsity := 1
  spectral_radius := 2
  leak_rate := 1
  noise := 0

/-- Concrete draws for a two-neuron network: neuron 0 at `x = 0`, neuron 1 at
`x = 1`, all `W` entries drawn 1, every pairwise connection threshold drawn 2
(so the distance gate passes), and all input/output gates closed.  Exactly the
edge from neuron 0 into neuron 1 survives the spatial mask. -/
def cD : ResetDraws 2 1 where
  positions := fun i => if (i : ℕ) = 0 then (0, 0) else (1, 0)
  activityDraw := fun _ => 0
  wDraw := fun _ _ => 1
  internThresh := fun _ _ => 2
  wInDraw := 0
  connInDraw := 0
  wOutDraw := 0
  connOutDraw := fun _ => 0
  wBackDraw := 0

theorem cD_pdist_10 : pdist cD 1 0 = 1 := by
  have h : pdist cD 1 0 = Real.sqrt (((1 : ℝ) - 0) ^ 2 + ((0 : ℝ) - 0) ^ 2) := by
    simp [pdist, cD]
  rw [h]
  norm_num

theorem cD_W_10 : (mkESN cP cD).W 1 0 = 2 := by
  have hne : (1 : Fin 2) ≠ 0 := by decide
  rw [show (mkESN cP cD).W 1 0 = cP.spectral_radius * maskedW cD 1 0 from rfl]
  rw [maskedW, cD_pdist_10]
  simp [cD, cP, hne]

/-- **C3 (counterexample).** On the concrete two-neuron network, `W[1,0] ≠ 0`
while `position[0].x = 0` is not greater than `position[1].x = 1`, refuting the
claim's direction `W[i,j] ≠ 0 ⇒ position[j].x > position[i].x` at `i = 1`,
`j = 0`. -/
theorem W_causal_claim_false :
    (mkESN cP cD).W 1 0 ≠ 0 ∧
    ¬ (((mkESN cP cD).position 0).1 > ((mkESN cP cD).position 1).1) := by
  constructor
  · rw [cD_W_10]; norm_num
  · simp [mkESN, cD]

/-- Witness: the amended causality theorem applied at the concrete nonzero
entry `W[1,0]` of the two-neuron network. -/
theorem W_causal_witness :
    (mkESN cP cD).W 1 0 ≠ 0 ∧
    ((mkESN cP cD).position 1).1 > ((mkESN cP cD).position 0).1 := by
  have h : (mkESN cP cD).W 1 0 ≠ 0 := by rw [cD_W_10]; norm_num
  exact ⟨h, W_causal_increasing_x cP cD 1 0 h⟩

/-- **C4 (amended).** Construction forms `pseudo_W` but never analyses its
spectrum: it cannot fail (no `DegenerateSpectrum` outcome exists — the
eigenvalue branch of the source is commented out) and it always scales the
masked internal matrix by the flat user-supplied factor `spectral_radius`
instead of `target_spectral_radius / ρ`. -/
theorem flat_spectral_scaling {N k : ℕ} (p : Params) (d : ResetDraws N k) :
    (mkESN p d).W = p.spectral_radius • maskedW d := by
  funext i j
  simp [mkESN, Matrix.smul_apply]

theorem cD_maskedWOut : maskedWOut cD = 0 := by
  funext i o
  simp [maskedWOut, cD, Matrix.zero_apply]

/-- Every complex eigenvalue of `pseudo_W` for the concrete two-neuron draws is
zero: the matrix is strictly triangular (single nonzero entry at `(1,0)`). -/
theorem cD_pseudoW_degenerate : eigvalsAllZero (pseudoW cP cD) := by
  have hpw : ∀ i j, pseudoW cP cD i j
      = if (i : ℕ) = 1 ∧ (j : ℕ) = 0 then 1 else 0 := by
    intro i j
    rw [pseudoW]
    rw [show (maskedW cD + (maskedWOut cD * (wInCols cP cD).transpose).transpose) i j
        = maskedW cD i j + (maskedWOut cD * (wInCols cP cD).transpose).transpose i j
      from rfl]
    rw [cD_maskedWOut]
    simp only [Matrix.transpose_apply, Matrix.zero_mul, Matrix.zero_apply, add_zero]
    fin_cases i <;> fin_cases j <;> simp [maskedW, cD, pdist]
  intro μ v hv hEq
  by_contra hμ
  have h0 := congrFun hEq 0
  have h1 := congrFun hEq 1
  rw [Matrix.mulVec, Matrix.dotProduct] at h0 h1
  rw [Fin.sum_univ_two] at h0 h1
  simp only [Matrix.map_apply, hpw, Pi.smul_apply, smul_eq_mul] at h0 h1
  norm_num at h0 h1
  have hv0 : v 0 = 0 := h0.resolve_left hμ
  have hv1 : v 1 = 0 := by
    rw [hv0] at h1
    rcases mul_eq_zero.mp h1.symm with h | h
    · exact absurd h hμ
    · exact h
  apply hv
  funext i
  fin_cases i
  · exact hv0
  · exact hv1

/-- **C4 (counterexample).** On the concrete two-neuron draws the dominant
eigenvalue magnitude of `pseudo_W` is zero (every eigenvalue vanishes), yet
construction does not abort: it returns a network whose `W[1,0] = 2` — the
masked entry multiplied by the flat factor `spectral_radius = 2`, not by
`target_spectral_radius / ρ` (which is undefined here). -/
theorem degenerate_spectrum_no_failure :
    eigvalsAllZero (pseudoW cP cD) ∧ (mkESN cP cD).W 1 0 = 2 :=
  ⟨cD_pseudoW_degenerate, cD_W_10⟩

/-- IEEE-754 value abstraction used to model the NaN check in `update`: a
float64 is either an ordinary finite real or NaN.  The operations below
propagate NaN exactly as IEEE arithmetic does on these values (infinities,
which the claims do not mention, are not represented). -/
inductive FVal : Type
  | nan : FVal
  | val : ℝ → FVal

/-- IEEE addition on the abstraction: NaN propagates through either operand. -/
def addF : FVal → FVal → FVal
  | .val a, .val b => .val (a + b)
  | _, _ => .nan

/-- A finite weight times an abstract value: `r * NaN = NaN` for every `r`. -/
def mulF (r : ℝ) : FVal → FVal
  | .val a => .val (r * a)
  | .nan => .nan

/-- `np.tanh` on the abstraction: `tanh(NaN) = NaN`. -/
def tanhF : FVal → FVal
  | .val a => .val (Real.tanh a)
  | .nan => .nan

/-- Division by a finite scalar (used only with `n_iter + 2 ≥ 2`). -/
def divF : FVal → ℝ → FVal
  | .val a, r => .val (a / r)
  | .nan, _ => .nan

/-- `np.isnan` on one value. -/
def isNan : FVal → Bool
  | .nan => true
  | .val _ => false

/-- `np.sum`: reduction of the entries by IEEE addition. -/
def sumF (l : List FVal) : FVal := l.foldr addF (.val 0)

/-- `M @ v` with finite weights and abstract vector entries. -/
def mulVecF {m n : ℕ} (M : Matrix (Fin m) (Fin n) ℝ) (v : Fin n → FVal) :
    Fin m → FVal :=
  fun i => sumF (List.ofFn fun j => mulF (M i j) (v j))

theorem isNan_addF (a b : FVal) : isNan (addF a b) = (isNan a || isNan b) := by
  cases a <;> cases b <;> rfl

/-- The sum of a list of IEEE values is NaN exactly when some entry is NaN
(no infinities exist on this domain, so no other source of NaN arises). -/
theorem isNan_sumF (l : List FVal) :
    isNan (sumF l) = true ↔ ∃ x ∈ l, x = FVal.nan := by
  induction l with
  | nil => simp [sumF, isNan]
  | cons a l ih =>
    have h : sumF (a :: l) = addF a (sumF l) := rfl
    rw [h, isNan_addF, Bool.or_eq_true, ih]
    cases a
    · simp [isNan]
    · simp [isNan]

/-- The dynamic state mutated by `update`, with NaN-aware values (the weight
matrices hold finite floats; NaN enters through the input or the activity). -/
structure FState (N k : ℕ) : Type where
  activity : Fin N → FVal
  mean : Fin N → FVal
  y : Fin k → FVal
  n_iter : ℕ

/-- The bias-augmented input `u` of `update` on the NaN-aware domain. -/
def uF {k : ℕ} (input : Option (Fin k → FVal)) (addNoise : Bool) (noise : ℝ)
    (noiseDraw : Fin k → ℝ) : Fin (k + 1) → FVal :=
  Fin.cons (.val 1)
    (fun i => addF ((input.getD fun _ => .val 0) i)
      (.val (if addNoise then noise * noiseDraw i else 0)))

/-- The freshly computed activity vector of `update` on the NaN-aware domain:
`(1 - leak_rate) * activity + leak_rate * tanh(W_in·u + W·activity)`. -/
def newActF {N k : ℕ} (W_in : Matrix (Fin N) (Fin (k + 1)) ℝ)
    (W : Matrix (Fin N) (Fin N) ℝ) (leak_rate noise : ℝ) (act : Fin N → FVal)
    (input : Option (Fin k → FVal)) (addNoise : Bool) (noiseDraw : Fin k → ℝ) :
    Fin N → FVal :=
  fun i =>
    addF (mulF (1 - leak_rate) (act i))
      (mulF leak_rate (tanhF (addF (mulVecF W_in (uF input addNoise noise noiseDraw) i)
        (mulVecF W act i))))

/-- `Spatial_ESN.update` on the NaN-aware domain, mirroring the source line by
line; the second component reports whether `np.isnan(np.sum(activity))` raised.
The activity has already been assigned when the check runs, so the raised state
carries the raw computed vector, and the raise skips the readout, the counter
increment and the mean update. -/
def updateF {N k : ℕ} (W_in : Matrix (Fin N) (Fin (k + 1)) ℝ)
    (W : Matrix (Fin N) (Fin N) ℝ) (W_outT : Matrix (Fin k) (Fin N) ℝ)
    (istrained : Bool) (leak_rate noise : ℝ) (s : FState N k)
    (input : Option (Fin k → FVal)) (addNoise : Bool) (noiseDraw : Fin k → ℝ) :
    FState N k × Bool :=
  if isNan (sumF (List.ofFn
      (newActF W_in W leak_rate noise s.activity input addNoise noiseDraw))) then
    ({ s with
      activity := newActF W_in W leak_rate noise s.activity input addNoise noiseDraw },
      true)
  else
    ({ activity := newActF W_in W leak_rate noise s.activity input addNoise noiseDraw
       y := if istrained then
          mulVecF W_outT (newActF W_in W leak_rate noise s.activity input addNoise noiseDraw)
        else s.y
       n_iter := s.n_iter + 1
       mean := fun i =>
         divF (addF (mulF ((s.n_iter : ℝ) + 1) (s.mean i))
             (newActF W_in W leak_rate noise s.activity input addNoise noiseDraw i))
           ((s.n_iter : ℝ) + 2) }, false)

theorem updateF_snd {N k : ℕ} (W_in : Matrix (Fin N) (Fin (k + 1)) ℝ)
    (W : Matrix (Fin N) (Fin N) ℝ) (W_outT : Matrix (Fin k) (Fin N) ℝ)
    (istrained : Bool) (leak_rate noise : ℝ) (s : FState N k)
    (input : Option (Fin k → FVal)) (addNoise : Bool) (noiseDraw : Fin k → ℝ) :
    (updateF W_in W W_outT istrained leak_rate noise s input addNoise noiseDraw).2 =
      isNan (sumF (List.ofFn
        (newActF W_in W leak_rate noise s.activity input addNoise noiseDraw))) := by
  unfold updateF
  by_cases h : isNan (sumF (List.ofFn
      (newActF W_in W leak_rate noise s.activity input addNoise noiseDraw))) = true
  · rw [if_pos h, h]
  · rw [if_neg h]
    rw [Bool.not_eq_true] at h
    rw [h]

theorem updateF_activity {N k : ℕ} (W_in : Matrix (Fin N) (Fin (k + 1)) ℝ)
    (W : Matrix (Fin N) (Fin N) ℝ) (W_outT : Matrix (Fin k) (Fin N) ℝ)
    (istrained : Bool) (leak_rate noise : ℝ) (s : FState N k)
    (input : Option (Fin k → FVal)) (addNoise : Bool) (noiseDraw : Fin k → ℝ) :
    (updateF W_in W W_outT istrained leak_rate noise s input addNoise noiseDraw).1.activity =
      newActF W_in W leak_rate noise s.activity input addNoise noiseDraw := by
  unfold updateF
  by_cases h : isNan (sumF (List.ofFn
      (newActF W_in W leak_rate noise s.activity input addNoise noiseDraw))) = true
  · rw [if_pos h]
  · rw [if_neg h]

/-- **C6.** `update` raises the `NumericInstability` failure iff some entry of
the freshly computed activity vector is NaN (the `np.isnan(np.sum(...))` test,
exact on this domain where NaN is the only non-finite value); in both outcomes
the stored activity is exactly the computed leaky-integrator vector — nothing is
clamped or altered to hide the failure — and on a raise the readout, the step
counter and the running mean are untouched: the failure propagates
immediately. -/
theorem update_numeric_instability {N k : ℕ} (W_in : Matrix (Fin N) (Fin (k + 1)) ℝ)
    (W : Matrix (Fin N) (Fin N) ℝ) (W_outT : Matrix (Fin k) (Fin N) ℝ)
    (istrained : Bool) (leak_rate noise : ℝ) (s : FState N k)
    (input : Option (Fin k → FVal)) (addNoise : Bool) (noiseDraw : Fin k → ℝ) :
    ((updateF W_in W W_outT istrained leak_rate noise s input addNoise noiseDraw).2 = true ↔
      ∃ i, (updateF W_in W W_outT istrained leak_rate noise s input addNoise
        noiseDraw).1.activity i = FVal.nan) ∧
    (updateF W_in W W_outT istrained leak_rate noise s input addNoise
        noiseDraw).1.activity =
      newActF W_in W leak_rate noise s.activity input addNoise noiseDraw ∧
    ((updateF W_in W W_outT istrained leak_rate noise s input addNoise noiseDraw).2 = true →
      (updateF W_in W W_outT istrained leak_rate noise s input addNoise
          noiseDraw).1.mean = s.mean ∧
      (updateF W_in W W_outT istrained leak_rate noise s input addNoise
          noiseDraw).1.y = s.y ∧
      (updateF W_in W W_outT istrained leak_rate noise s input addNoise
          noiseDraw).1.n_iter = s.n_iter) := by
  refine ⟨?_, updateF_activity _ _ _ _ _ _ _ _ _ _, ?_⟩
  · rw [updateF_snd, updateF_activity, isNan_sumF]
    simp [List.mem_ofFn]
  · intro h
    rw [updateF_snd] at h
    unfold updateF
    rw [if_pos h]
    exact ⟨rfl, rfl, rfl⟩

/-- All-zero NaN-aware state for the witness below. -/
def zeroFState : FState 1 1 where
  activity := fun _ => .val 0
  mean := fun _ => .val 0
  y := fun _ => .val 0
  n_iter := 0

/-- Witness: feeding a NaN input through zero weights makes the computed
activity NaN, the check raises, and the theorem yields the untouched readout,
counter and mean. -/
theorem update_numeric_instability_witness :
    (updateF (0 : Matrix (Fin 1) (Fin 2) ℝ) 0 0 false 1 0 zeroFState
        (some fun _ => FVal.nan) false fun _ => 0).2 = true ∧
    ((updateF (0 : Matrix (Fin 1) (Fin 2) ℝ) 0 0 false 1 0 zeroFState
        (some fun _ => FVal.nan) false fun _ => 0).1.mean = zeroFState.mean ∧
      (updateF (0 : Matrix (Fin 1) (Fin 2) ℝ) 0 0 false 1 0 zeroFState
        (some fun _ => FVal.nan) false fun _ => 0).1.y = zeroFState.y ∧
      (updateF (0 : Matrix (Fin 1) (Fin 2) ℝ) 0 0 false 1 0 zeroFState
        (some fun _ => FVal.nan) false fun _ => 0).1.n_iter = zeroFState.n_iter) :=
  have hraise : (updateF (0 : Matrix (Fin 1) (Fin 2) ℝ) 0 0 false 1 0 zeroFState
      (some fun _ => FVal.nan) false fun _ => 0).2 = true := by
    rw [updateF_snd]
    rfl
  ⟨hraise,
    (update_numeric_instability (0 : Matrix (Fin 1) (Fin 2) ℝ) 0 0 false 1 0 zeroFState
      (some fun _ => FVal.nan) false fun _ => 0).2.2 hraise⟩

end SpatialESN
